import Mathlib

/-!
Formal model of the syntactic front end of the hush shell scripting language,
shallowly embedding `src/syntax/parser/mod.rs` (the recursive-descent,
precedence-climbing parser) and the AST data model of `src/syntax/ast/mod.rs`.

Conventions of the embedding:
* Interned symbols (`Symbol`) are opaque handles; we model them as `Nat`.
* The lexer module's token types (`Token`, `TokenKind`, `Keyword`, `Operator`,
  `Literal`) are reconstructed from their uses in the parser, the lexer tests
  (`src/lexer/tests.rs`) and the specification's token-kind taxonomy, since the
  lexer source itself is not part of the analysed sources.
* Command-block opener tokens and the command sub-grammar are an external
  collaborator's grammar per the specification and their source is not among
  the analysed files; the modelled token alphabet therefore omits them, and the
  command-block branch of `parse_primary` is omitted with them.
* The parser mutates `self` (cursor plus one-token buffer); we model that by
  explicit state passing over `PState`.
* All parsing functions that are (mutually) recursive in the source take a
  fuel argument; `none` means the model ran out of fuel, which never happens
  for adequate fuel since every recursive cycle of the source consumes input
  or recurses into a strictly smaller construct.  The top-level
  `Parser::parse` loop, in contrast, is genuinely able to loop forever, which
  the fuel-indexed `parseTop` makes observable.
-/

namespace Hush

/-- Symbol is an opaque interned-string handle (source: `src/symbol`, used
abstractly by the parser); modelled as a natural number. -/
abbrev Symbol := Nat

/-- SourcePos from `src/syntax/mod.rs` as described by the spec data model:
line, column and an interned source path. -/
structure SourcePos where
  line : Nat
  column : Nat
  path : Symbol
deriving DecidableEq, Repr

/-- Keywords of the language, from the spec token taxonomy and the keyword
tokens matched by the parser (`Keyword::Function`, `If`, ...). The logical
operators `and`, `or`, `not` are lexed as operators, not keywords. -/
inductive Keyword where
  | function_ | if_ | then_ | else_ | end_ | let_
  | return_ | break_ | while_ | for_ | do_ | in_ | self_
deriving DecidableEq, Repr

/-- Operators, from the spec operator taxonomy (section 6) and the operator
tokens matched by the parser. -/
inductive Operator where
  | plus | minus | times | div | mod
  | equals | notEquals | greater | greaterEquals | lower | lowerEquals
  | and_ | or_ | concat | assign | dot | not_ | try_
deriving DecidableEq, Repr

/-- Lexical-level literals (spec section 3). Numeric payloads are carried
opaquely: the parser never inspects them, so the 64-bit float payload is
modelled as its bit pattern and the string as its decoded byte list. -/
inductive LexLiteral where
  | nil
  | true_
  | false_
  | int (value : Int)
  | float (bits : Nat)
  | byte (value : Nat)
  | str (bytes : List Nat)
deriving DecidableEq, Repr

/-- Token kinds, from the spec token taxonomy and the kinds matched by the
parser. Command-block openers are omitted (external sub-grammar, see the
module docstring). -/
inductive TokenKind where
  | keyword (k : Keyword)
  | operator (op : Operator)
  | literal (l : LexLiteral)
  | identifier (s : Symbol)
  | openParens | closeParens
  | openBracket | closeBracket
  | openDict
  | comma | colon
deriving DecidableEq, Repr

/-- A token: a kind tagged with a source position (`Token { token, pos }`). -/
structure Token where
  token : TokenKind
  pos : SourcePos
deriving DecidableEq, Repr

/-- Modelled from the spec: the parser error type lives in
`src/syntax/parser/error.rs`, which is not among the analysed sources. The
spec's error taxonomy (section 6) gives `Unexpected(token, expected)`,
`UnexpectedEof` and `DuplicateKeys(pos)`; the parser builds these through
`Error::unexpected` (expected token kind), `Error::unexpected_msg` (expected
description string), `Error::unexpected_eof` and `Error::duplicate_keys`. -/
inductive Error where
  | unexpected (actual : Token) (expected : TokenKind)
  | unexpectedMsg (actual : Token) (expected : String)
  | unexpectedEof
  | duplicateKeys (pos : SourcePos)
deriving DecidableEq, Repr

/-- Unary operators of the AST (`ast::UnaryOp`). -/
inductive UnaryOp where
  | minus | not_ | try_
deriving DecidableEq, Repr

/-- Binary operators of the AST (`ast::BinaryOp`). -/
inductive BinaryOp where
  | plus | minus | times | div | mod
  | equals | notEquals | greater | greaterEquals | lower | lowerEquals
  | and_ | or_ | concat
deriving DecidableEq, Repr

mutual

/-- AST-level literals (`ast::Literal`), as constructed by this parser:
basic literals plus arrays, dicts, function literals
(`Literal::Function { args, body }`) and the literal identifier used for
dot-access desugaring. The source stores dict entries in a `HashMap`; we
keep them as the insertion-ordered association list, which preserves the
parser-visible behavior (`insert` reports a duplicate exactly when the key
is already present). -/
inductive Literal where
  | nil
  | bool (b : Bool)
  | int (value : Int)
  | float (bits : Nat)
  | byte (value : Nat)
  | str (bytes : List Nat)
  | array (items : List Expr)
  | dict (items : List (Symbol × Expr))
  | function_ (args : List Symbol) (body : Block)
  | identifier (s : Symbol)

/-- Expressions (`ast::Expr`), including the ill-formed placeholder variant.
The command-block variant is omitted together with its (externally specified)
sub-grammar. -/
inductive Expr where
  | illFormed
  | self_ (pos : SourcePos)
  | identifier (identifier : Symbol) (pos : SourcePos)
  | literal (literal : Literal) (pos : SourcePos)
  | unaryOp (op : UnaryOp) (operand : Expr) (pos : SourcePos)
  | binaryOp (left : Expr) (op : BinaryOp) (right : Expr) (pos : SourcePos)
  | ifExpr (condition : Expr) (then_ : Block) (otherwise : Block) (pos : SourcePos)
  | access (object : Expr) (field : Expr) (pos : SourcePos)
  | call (function_ : Expr) (params : List Expr) (pos : SourcePos)

/-- Statements (`ast::Statement`), including the ill-formed placeholder.
`assign` carries no position, exactly as constructed by this parser
(`ast::Statement::Assign { left, right }`). -/
inductive Statement where
  | illFormed
  | letStmt (identifier : Symbol) (init : Expr) (pos : SourcePos)
  | assign (left : Expr) (right : Expr)
  | ret (expr : Expr) (pos : SourcePos)
  | break_ (pos : SourcePos)
  | while_ (condition : Expr) (block : Block) (pos : SourcePos)
  | for_ (identifier : Symbol) (expr : Expr) (block : Block) (pos : SourcePos)
  | expr (e : Expr)

/-- A block (`ast::Block`): ill-formed, or a list of statements. -/
inductive Block where
  | illFormed
  | block (statements : List Statement)

end

/-- Conversion from lexical literals to AST literals
(`impl From<lexer::Literal> for Literal`). -/
def Literal.ofLex : LexLiteral → Literal
  | .nil => .nil
  | .true_ => .bool true
  | .false_ => .bool false
  | .int v => .int v
  | .float b => .float b
  | .byte v => .byte v
  | .str s => .str s

/-- Conversion of operators to unary AST operators
(`impl From<lexer::Operator> for UnaryOp`): defined on minus, not and try;
the source panics on any other operator, which call sites rule out by
checking the classification predicate first. Unmapped operators here yield
`minus` as an arbitrary junk value standing for the unreachable panic. -/
def UnaryOp.ofOperator : Operator → UnaryOp
  | .minus => .minus
  | .not_ => .not_
  | .try_ => .try_
  | _ => .minus

/-- Conversion of operators to binary AST operators
(`impl From<lexer::Operator> for BinaryOp`): the source panics on
assign, dot, not and try, which call sites rule out by checking the
classification predicate first; those yield `plus` as junk standing for the
unreachable panic. -/
def BinaryOp.ofOperator : Operator → BinaryOp
  | .plus => .plus
  | .minus => .minus
  | .times => .times
  | .div => .div
  | .mod => .mod
  | .equals => .equals
  | .notEquals => .notEquals
  | .greater => .greater
  | .greaterEquals => .greaterEquals
  | .lower => .lower
  | .lowerEquals => .lowerEquals
  | .and_ => .and_
  | .or_ => .or_
  | .concat => .concat
  | _ => .plus

/-- Modelled from the spec: the operator classification predicates live in the
lexer module, which is not among the analysed sources; the spec (sections 4.3
and 6) assigns factor level to times, division and modulo. -/
def Operator.isFactor : Operator → Bool
  | .times | .div | .mod => true
  | _ => false

/-- Modelled from the spec: term level is plus and minus (sections 4.3, 6). -/
def Operator.isTerm : Operator → Bool
  | .plus | .minus => true
  | _ => false

/-- Modelled from the spec: comparison level is the four ordering operators
(sections 4.3, 6). -/
def Operator.isComparison : Operator → Bool
  | .greater | .greaterEquals | .lower | .lowerEquals => true
  | _ => false

/-- Modelled from the spec: equality level is equals and not-equals
(sections 4.3, 6). -/
def Operator.isEquality : Operator → Bool
  | .equals | .notEquals => true
  | _ => false

/-- Modelled from the spec: the prefix unary operators are minus and not
(section 4.3, unary level). -/
def Operator.isUnary : Operator → Bool
  | .minus | .not_ => true
  | _ => false

/-- Parser state: the one-token buffer `self.token` plus the remaining
cursor, modelling the `(Peekable<I>, Option<Token>)` pair of `Parser`. -/
structure PState where
  token : Option Token
  rest : List Token
deriving DecidableEq, Repr

/-- Construct the initial parser state from the whole token sequence
(`Parser::new` pulls the first token into the buffer). -/
def mkParser (tokens : List Token) : PState :=
  ⟨tokens.head?, tokens.tail⟩

/-- Step the cursor, placing the next token in the buffer (`Parser::step`). -/
def stepState (s : PState) : PState :=
  ⟨s.rest.head?, s.rest.tail⟩

/-- Peek the next token without consuming (`Parser::peek`). -/
def PState.peek (s : PState) : Option Token :=
  s.rest.head?

/-- Result of a non-recursive parsing primitive: an error or a value, plus
the state after the attempt. -/
abbrev ERes (α : Type) := Except Error α × PState

/-- Result of a fueled parsing function: `none` when the model ran out of
fuel, otherwise an error or a value plus the state after the attempt. -/
abbrev PRes (α : Type) := Option (ERes α)

/-- Try and eat a token (`Parser::eat`): if there is a buffered token, feed
it to `eat`; on success step the cursor, on failure restore the token
returned alongside the error. At end of input fail with UnexpectedEof. -/
def eat (f : Token → Except (Error × Token) α) (s : PState) : ERes α :=
  match s.token with
  | some t =>
    match f t with
    | .ok value => (.ok value, stepState s)
    | .error (e, t') => (.error e, { s with token := some t' })
  | none => (.error .unexpectedEof, s)

/-- Consume the expected token kind, or produce an error carrying the actual
token (`Parser::expect`). -/
def expect (expected : TokenKind) (s : PState) : ERes TokenKind :=
  eat
    (fun t =>
      if t.token = expected then .ok t.token
      else .error (.unexpected t expected, t))
    s

/-- Parse an identifier, returning its symbol and position
(`Parser::parse_identifier`). -/
def parseIdentifier (s : PState) : ERes (Symbol × SourcePos) :=
  eat
    (fun t =>
      match t with
      | ⟨.identifier sym, pos⟩ => .ok (sym, pos)
      | t => .error (.unexpectedMsg t "identifier", t))
    s

/-- Sequencing of a primitive (non-fueled) step with a continuation: the
state threading performed by the `?` operator in the source. -/
def ebind (r : ERes α) (f : α → PState → PRes β) : PRes β :=
  match r with
  | (.ok a, s) => f a s
  | (.error e, s) => some (.error e, s)

/-- Sequencing of a fueled step with a continuation: as `ebind`, and
propagating fuel exhaustion. -/
def pbind (r : PRes α) (f : α → PState → PRes β) : PRes β :=
  match r with
  | none => none
  | some (.error e, s) => some (.error e, s)
  | some (.ok a, s) => f a s

/-- Loop of `Parser::sep_by`: repeatedly run the item parser while it
succeeds, consuming a separator token between items; the first item failure
ends the list with the items parsed so far, keeping the failure's state
(tokens consumed by the failed attempt are not restored) and swallowing its
error. One fuel unit per iteration. -/
def sepByGo (p : PState → PRes α) (sep : TokenKind → Bool) :
    Nat → PState → List α → PRes (List α)
  | 0, _, _ => none
  | fuel+1, s, acc =>
    match p s with
    | none => none
    | some (.error _, s') => some (.ok acc, s')
    | some (.ok item, s') =>
      match s'.token with
      | some t =>
        if sep t.token then sepByGo p sep fuel (stepState s') (acc ++ [item])
        else some (.ok (acc ++ [item]), s')
      | none => some (.ok (acc ++ [item]), s')

/-- Items divided by a separator, optional trailing separator
(`Parser::sep_by`). -/
def sepBy (fuel : Nat) (p : PState → PRes α) (sep : TokenKind → Bool)
    (s : PState) : PRes (List α) :=
  sepByGo p sep fuel s []

/-- Comma-separated items (`Parser::comma_sep`). -/
def commaSep (fuel : Nat) (p : PState → PRes α) (s : PState) : PRes (List α) :=
  sepBy fuel p (fun k => k = TokenKind.comma) s

/-- Item parser for function parameter lists: the closure inside
`Parser::parse_function`, keeping only the identifier's symbol. -/
def parseParamItem (s : PState) : PRes Symbol :=
  ebind (parseIdentifier s) (fun idp s' => some (.ok idp.1, s'))

/-- Insertion loop of the dict literal branch of `Parser::parse_primary`:
insert each entry in order, failing (with `none`) at the first key that is
already present, mirroring `HashMap::insert` returning `Some`. -/
def dictInsertAll : List (Symbol × Expr) → List (Symbol × Expr) →
    Option (List (Symbol × Expr))
  | acc, [] => some acc
  | acc, (k, v) :: restItems =>
    if acc.any (fun e => e.1 = k) then none
    else dictInsertAll (acc ++ [(k, v)]) restItems

/-- Levels of the precedence-climbing grammar, lowest (or) to highest
(factor), as instantiated in `Parser::parse_expression`. -/
inductive BinLevel where
  | orL | andL | equality | comparison | concatL | term | factor
deriving DecidableEq, Repr

/-- The operator classification predicate of each precedence level, as
passed to `parse_binop` by `Parser::parse_expression`. -/
def levelPred : BinLevel → Operator → Bool
  | .orL, op => op = .or_
  | .andL, op => op = .and_
  | .equality, op => op.isEquality
  | .comparison, op => op.isComparison
  | .concatL, op => op = .concat
  | .term, op => op.isTerm
  | .factor, op => op.isFactor

/-- Test for the return statement (`matches!(statement, Statement::Return)`
inside `Parser::parse_block`). -/
def isReturnStmt : Statement → Bool
  | .ret _ _ => true
  | _ => false

mutual

/-- Parse a block of statements (`Parser::parse_block`): delegate to the
accumulating loop with an empty statement list. -/
def parseBlock : Nat → PState → PRes Block
  | 0, _ => none
  | fuel+1, s => parseBlockLoop fuel s []

/-- The loop of `Parser::parse_block`: stop before else, end or end of
input, and right after a parsed return statement. -/
def parseBlockLoop : Nat → PState → List Statement → PRes Block
  | 0, _, _ => none
  | fuel+1, s, acc =>
    match s.token with
    | some ⟨.keyword .else_, _⟩ => some (.ok (.block acc), s)
    | some ⟨.keyword .end_, _⟩ => some (.ok (.block acc), s)
    | none => some (.ok (.block acc), s)
    | some _ =>
      pbind (parseStatement fuel s) (fun st s1 =>
        if isReturnStmt st then some (.ok (.block (acc ++ [st])), s1)
        else parseBlockLoop fuel s1 (acc ++ [st]))

/-- Parse a single statement (`Parser::parse_statement`). A `function`
keyword whose lookahead is not an identifier falls through to the
expression-statement branch, exactly as the failed match guard does in the
source. -/
def parseStatement : Nat → PState → PRes Statement
  | 0, _ => none
  | fuel+1, s =>
    match s.token with
    | some ⟨.keyword .let_, pos⟩ =>
      ebind (parseIdentifier (stepState s)) (fun idp s1 =>
        match s1.token with
        | some ⟨.operator .assign, _⟩ =>
          pbind (parseExpression fuel (stepState s1)) (fun init s2 =>
            some (.ok (.letStmt idp.1 init pos), s2))
        | _ => some (.ok (.letStmt idp.1 (.literal .nil pos) pos), s1))
    | some ⟨.keyword .function_, pos⟩ =>
      match s.peek with
      | some ⟨.identifier _, _⟩ =>
        ebind (parseIdentifier (stepState s)) (fun idp s1 =>
          pbind (parseFunction fuel s1) (fun ab s2 =>
            some (.ok
              (.letStmt idp.1 (.literal (.function_ ab.1 ab.2) pos) idp.2),
              s2)))
      | _ => parseExprStatement fuel s
    | some ⟨.keyword .return_, pos⟩ =>
      pbind (parseExpression fuel (stepState s)) (fun e s1 =>
        some (.ok (.ret e pos), s1))
    | some ⟨.keyword .break_, pos⟩ =>
      some (.ok (.break_ pos), stepState s)
    | some ⟨.keyword .while_, pos⟩ =>
      pbind (parseExpression fuel (stepState s)) (fun condition s1 =>
        ebind (expect (.keyword .do_) s1) (fun _ s2 =>
          pbind (parseBlock fuel s2) (fun blk s3 =>
            ebind (expect (.keyword .end_) s3) (fun _ s4 =>
              some (.ok (.while_ condition blk pos), s4)))))
    | some ⟨.keyword .for_, pos⟩ =>
      ebind (parseIdentifier (stepState s)) (fun idp s1 =>
        ebind (expect (.keyword .in_) s1) (fun _ s2 =>
          pbind (parseExpression fuel s2) (fun e s3 =>
            ebind (expect (.keyword .do_) s3) (fun _ s4 =>
              pbind (parseBlock fuel s4) (fun blk s5 =>
                ebind (expect (.keyword .end_) s5) (fun _ s6 =>
                  some (.ok (.for_ idp.1 e blk pos), s6)))))))
    | some _ => parseExprStatement fuel s
    | none => some (.error .unexpectedEof, s)

/-- The expression-statement branch of `Parser::parse_statement`: an
expression, optionally followed by an assignment. -/
def parseExprStatement : Nat → PState → PRes Statement
  | 0, _ => none
  | fuel+1, s =>
    pbind (parseExpression fuel s) (fun e s1 =>
      match s1.token with
      | some ⟨.operator .assign, _⟩ =>
        pbind (parseExpression fuel (stepState s1)) (fun right s2 =>
          some (.ok (.assign e right), s2))
      | _ => some (.ok (.expr e), s1))

/-- Parse a single expression (`Parser::parse_expression`): enter the
precedence climb at the lowest level, logical or. -/
def parseExpression : Nat → PState → PRes Expr
  | 0, _ => none
  | fuel+1, s => parseBinop fuel .orL s

/-- Parse a binary-operator level (`Parser::parse_binop`): the left operand
at the next higher level, then the level's operator loop. -/
def parseBinop : Nat → BinLevel → PState → PRes Expr
  | 0, _, _ => none
  | fuel+1, lvl, s =>
    pbind (parseLower fuel lvl s) (fun e s1 => parseBinopLoop fuel lvl e s1)

/-- The loop of `Parser::parse_binop`: while the buffered token is an
operator of this level, consume it, parse the right operand at the next
higher level, and extend the expression leftward (left associativity). -/
def parseBinopLoop : Nat → BinLevel → Expr → PState → PRes Expr
  | 0, _, _, _ => none
  | fuel+1, lvl, left, s =>
    match s.token with
    | some ⟨.operator op, pos⟩ =>
      if levelPred lvl op then
        pbind (parseLower fuel lvl (stepState s)) (fun right s1 =>
          parseBinopLoop fuel lvl
            (.binaryOp left (BinaryOp.ofOperator op) right pos) s1)
      else some (.ok left, s)
    | _ => some (.ok left, s)

/-- Dispatch to the next higher precedence level, as fixed by the chain of
closures in `Parser::parse_expression` (factor defers to unary). -/
def parseLower : Nat → BinLevel → PState → PRes Expr
  | 0, _, _ => none
  | fuel+1, lvl, s =>
    match lvl with
    | .orL => parseBinop fuel .andL s
    | .andL => parseBinop fuel .equality s
    | .equality => parseBinop fuel .comparison s
    | .comparison => parseBinop fuel .concatL s
    | .concatL => parseBinop fuel .term s
    | .term => parseBinop fuel .factor s
    | .factor => parseUnop fuel s

/-- Parse a prefix unary chain (`Parser::parse_unop`). -/
def parseUnop : Nat → PState → PRes Expr
  | 0, _ => none
  | fuel+1, s =>
    match s.token with
    | some ⟨.operator op, pos⟩ =>
      if op.isUnary then
        pbind (parseUnop fuel (stepState s)) (fun operand s1 =>
          some (.ok (.unaryOp (UnaryOp.ofOperator op) operand pos), s1))
      else parsePostfixChain fuel s
    | _ => parsePostfixChain fuel s

/-- Parse a primary expression followed by its postfix chain
(`Parser::parse_postfix`). -/
def parsePostfixChain : Nat → PState → PRes Expr
  | 0, _ => none
  | fuel+1, s =>
    pbind (parsePrimary fuel s) (fun e s1 => parsePostfixLoop fuel e s1)

/-- The loop of `Parser::parse_postfix`: function call, subscript, and
dot access (sugar for subscript with a literal identifier key). -/
def parsePostfixLoop : Nat → Expr → PState → PRes Expr
  | 0, _, _ => none
  | fuel+1, e, s =>
    match s.token with
    | some ⟨.openParens, pos⟩ =>
      pbind (commaSep fuel (fun st => parseExpression fuel st) (stepState s))
        (fun params s1 =>
          ebind (expect .closeParens s1) (fun _ s2 =>
            parsePostfixLoop fuel (.call e params pos) s2))
    | some ⟨.openBracket, pos⟩ =>
      pbind (parseExpression fuel (stepState s)) (fun field s1 =>
        ebind (expect .closeBracket s1) (fun _ s2 =>
          parsePostfixLoop fuel (.access e field pos) s2))
    | some ⟨.operator .dot, pos⟩ =>
      ebind (parseIdentifier (stepState s)) (fun idp s1 =>
        parsePostfixLoop fuel
          (.access e (.literal (.identifier idp.1) idp.2) pos) s1)
    | _ => some (.ok e, s)

/-- Parse a primary expression (`Parser::parse_primary`). The command-block
branch is omitted together with the command-opener tokens (external
sub-grammar). On an unexpected token, the token is restored (the state is
unchanged) and the error carries that actual token. -/
def parsePrimary : Nat → PState → PRes Expr
  | 0, _ => none
  | fuel+1, s =>
    match s.token with
    | some ⟨.identifier sym, pos⟩ =>
      some (.ok (.identifier sym pos), stepState s)
    | some ⟨.keyword .self_, pos⟩ =>
      some (.ok (.self_ pos), stepState s)
    | some ⟨.literal l, pos⟩ =>
      some (.ok (.literal (Literal.ofLex l) pos), stepState s)
    | some ⟨.openBracket, pos⟩ =>
      pbind (commaSep fuel (fun st => parseExpression fuel st) (stepState s))
        (fun items s1 =>
          ebind (expect .closeBracket s1) (fun _ s2 =>
            some (.ok (.literal (.array items) pos), s2)))
    | some ⟨.openDict, pos⟩ =>
      pbind (commaSep fuel (fun st => parseDictItem fuel st) (stepState s))
        (fun items s1 =>
          ebind (expect .closeBracket s1) (fun _ s2 =>
            match dictInsertAll [] items with
            | some d => some (.ok (.literal (.dict d) pos), s2)
            | none => some (.error (.duplicateKeys pos), s2)))
    | some ⟨.keyword .function_, pos⟩ =>
      pbind (parseFunction fuel (stepState s)) (fun ab s1 =>
        some (.ok (.literal (.function_ ab.1 ab.2) pos), s1))
    | some ⟨.keyword .if_, pos⟩ =>
      pbind (parseExpression fuel (stepState s)) (fun condition s1 =>
        ebind (expect (.keyword .then_) s1) (fun _ s2 =>
          pbind (parseBlock fuel s2) (fun then_ s3 =>
            ebind
              (eat
                (fun t =>
                  match t with
                  | ⟨.keyword .end_, _⟩ => .ok false
                  | ⟨.keyword .else_, _⟩ => .ok true
                  | t => .error (.unexpectedMsg t "end or else", t))
                s3)
              (fun hasElse s4 =>
                if hasElse then
                  pbind (parseBlock fuel s4) (fun otherwise s5 =>
                    ebind (expect (.keyword .end_) s5) (fun _ s6 =>
                      some (.ok (.ifExpr condition then_ otherwise pos), s6)))
                else
                  some (.ok (.ifExpr condition then_ (.block []) pos), s4)))))
    | some ⟨.openParens, _⟩ =>
      pbind (parseExpression fuel (stepState s)) (fun e s1 =>
        ebind (expect .closeParens s1) (fun _ s2 => some (.ok e, s2)))
    | some t => some (.error (.unexpectedMsg t "expression"), s)
    | none => some (.error .unexpectedEof, s)

/-- Parse a function literal after the function keyword
(`Parser::parse_function`): parameter list, body block, end keyword. -/
def parseFunction : Nat → PState → PRes (List Symbol × Block)
  | 0, _ => none
  | fuel+1, s =>
    ebind (expect .openParens s) (fun _ s1 =>
      pbind (commaSep fuel parseParamItem s1) (fun args s2 =>
        ebind (expect .closeParens s2) (fun _ s3 =>
          pbind (parseBlock fuel s3) (fun body s4 =>
            ebind (expect (.keyword .end_) s4) (fun _ s5 =>
              some (.ok (args, body), s5))))))

/-- One dict entry, the closure inside the dict branch of
`Parser::parse_primary`: identifier key (position dropped), colon, value
expression. -/
def parseDictItem : Nat → PState → PRes (Symbol × Expr)
  | 0, _ => none
  | fuel+1, s =>
    ebind (parseIdentifier s) (fun kp s1 =>
      ebind (expect .colon s1) (fun _ s2 =>
        pbind (parseExpression fuel s2) (fun v s3 =>
          some (.ok (kp.1, v), s3))))

end

/-- The top-level entry point `Parser::parse`: repeatedly attempt
`parse_block`, reporting each error, until an attempt succeeds. The source
loop has no termination guarantee, so the model indexes it by an iteration
budget: the result is the produced block, if an attempt succeeded within
the budget, together with the list of reported errors in report order. -/
def parseTop : Nat → Nat → PState → Option Block × List Error
  | 0, _, _ => (none, [])
  | iters+1, fuel, s =>
    match parseBlock fuel s with
    | none => (none, [])
    | some (.ok b, _) => (some b, [])
    | some (.error e, s') =>
      let r := parseTop iters fuel s'
      (r.1, e :: r.2)

/-- The shallow ill-formedness test on blocks (`impl IllFormed for Block`,
`is_ill_formed`). -/
def Block.isIllFormed : Block → Bool
  | .illFormed => true
  | .block _ => false

/-- The shallow ill-formedness test on expressions
(`impl IllFormed for Expr`). -/
def Expr.isIllFormed : Expr → Bool
  | .illFormed => true
  | _ => false

/-- The shallow ill-formedness test on statements
(`impl IllFormed for Statement`). -/
def Statement.isIllFormed : Statement → Bool
  | .illFormed => true
  | _ => false

mutual

/-- Recursive well-formedness: no subterm of the expression is an
ill-formed placeholder. -/
def exprNoIll : Expr → Bool
  | .illFormed => false
  | .self_ _ => true
  | .identifier _ _ => true
  | .literal l _ => litNoIll l
  | .unaryOp _ operand _ => exprNoIll operand
  | .binaryOp l _ r _ => exprNoIll l && exprNoIll r
  | .ifExpr c t o _ => exprNoIll c && blockNoIll t && blockNoIll o
  | .access o f _ => exprNoIll o && exprNoIll f
  | .call f a _ => exprNoIll f && exprListNoIll a

/-- Recursive well-formedness of an AST literal. -/
def litNoIll : Literal → Bool
  | .array items => exprListNoIll items
  | .dict items => dictItemsNoIll items
  | .function_ _ body => blockNoIll body
  | _ => true

/-- Recursive well-formedness of an expression list. -/
def exprListNoIll : List Expr → Bool
  | [] => true
  | e :: es => exprNoIll e && exprListNoIll es

/-- Recursive well-formedness of dict entries. -/
def dictItemsNoIll : List (Symbol × Expr) → Bool
  | [] => true
  | (_, v) :: es => exprNoIll v && dictItemsNoIll es

/-- Recursive well-formedness of a statement. -/
def stmtNoIll : Statement → Bool
  | .illFormed => false
  | .letStmt _ init _ => exprNoIll init
  | .assign l r => exprNoIll l && exprNoIll r
  | .ret e _ => exprNoIll e
  | .break_ _ => true
  | .while_ c b _ => exprNoIll c && blockNoIll b
  | .for_ _ e b _ => exprNoIll e && blockNoIll b
  | .expr e => exprNoIll e

/-- Recursive well-formedness of a statement list. -/
def stmtListNoIll : List Statement → Bool
  | [] => true
  | st :: sts => stmtNoIll st && stmtListNoIll sts

/-- Recursive well-formedness: the block and every statement under it is
free of ill-formed placeholders. -/
def blockNoIll : Block → Bool
  | .illFormed => false
  | .block sts => stmtListNoIll sts

end

/-- Shorthand for a token on line 1 of source path 0 at the given column. -/
def tok (k : TokenKind) (column : Nat) : Token :=
  ⟨k, ⟨1, column, 0⟩⟩

/-- A token kind that starts a new statement (and can continue no
expression): the five statement keywords of the grammar. -/
def isStmtStart : TokenKind → Bool
  | .keyword .let_ | .keyword .return_ | .keyword .break_
  | .keyword .while_ | .keyword .for_ => true
  | _ => false

/-- The top-level parse loop never produces a block from this state, however
many iterations it is given: divergence of `Parser::parse`. -/
def parserDiverges (fuel : Nat) (s : PState) : Prop :=
  ∀ iters, (parseTop iters fuel s).1 = none

/-- Parser state holding the single token of the input text consisting of
one close parenthesis. -/
def loneCloseParens : PState :=
  mkParser [tok .closeParens 1]

/-- The error reported on every iteration of the top-level loop for
`loneCloseParens`. -/
def stuckError : Error :=
  .unexpectedMsg (tok .closeParens 1) "expression"

/-- Token sequence of `function foo(bar, baz) end` (line 1; foo, bar, baz
interned as symbols 1, 2, 3; columns as lexed from that text). -/
def namedFnStmtTokens : List Token :=
  [tok (.keyword .function_) 1, tok (.identifier 1) 10, tok .openParens 13,
   tok (.identifier 2) 14, tok .comma 17, tok (.identifier 3) 19,
   tok .closeParens 22, tok (.keyword .end_) 24]

/-- Token sequence of `let foo = function(bar, baz) end` (line 1; columns as
lexed from that text). -/
def letFnStmtTokens : List Token :=
  [tok (.keyword .let_) 1, tok (.identifier 1) 5, tok (.operator .assign) 9,
   tok (.keyword .function_) 11, tok .openParens 19, tok (.identifier 2) 20,
   tok .comma 23, tok (.identifier 3) 25, tok .closeParens 28,
   tok (.keyword .end_) 30]

/-- The statement produced for `function foo(bar, baz) end`: the statement
position is the identifier's (column 10), the function literal's position is
the function keyword's (column 1). -/
def namedFnStmt : Statement :=
  .letStmt 1 (.literal (.function_ [2, 3] (.block [])) ⟨1, 1, 0⟩) ⟨1, 10, 0⟩

/-- The statement produced for `let foo = function(bar, baz) end`: the
statement position is the let keyword's (column 1), the function literal's
position is the function keyword's (column 11). -/
def letFnStmt : Statement :=
  .letStmt 1 (.literal (.function_ [2, 3] (.block [])) ⟨1, 11, 0⟩) ⟨1, 1, 0⟩

/-- Replace the recorded position of a Let statement. -/
def setLetPos : Statement → SourcePos → Statement
  | .letStmt i init _, p => .letStmt i init p
  | st, _ => st

/-- Replace the position of the literal initializer of a Let statement. -/
def setLetInitPos : Statement → SourcePos → Statement
  | .letStmt i (.literal l _) pos, p => .letStmt i (.literal l p) pos
  | st, _ => st

/-- Read the position of the literal initializer of a Let statement. -/
def letInitPos : Statement → Option SourcePos
  | .letStmt _ (.literal _ p) _ => some p
  | _ => none

/-- Inversion for `pbind`: a successful composite run factors into a
successful first step and a successful continuation. -/
theorem pbind_eq_ok {α β : Type} {r : PRes α} {f : α → PState → PRes β}
    {b : β} {s' : PState} (h : pbind r f = some (.ok b, s')) :
    ∃ a sa, r = some (.ok a, sa) ∧ f a sa = some (.ok b, s') := by
  cases r with
  | none => simp [pbind] at h
  | some er =>
    obtain ⟨res, sa⟩ := er
    cases res with
    | error e => simp [pbind] at h
    | ok a => exact ⟨a, sa, rfl, by simpa [pbind] using h⟩

/-- Inversion for `ebind`: as for `pbind`, with a primitive first step. -/
theorem ebind_eq_ok {α β : Type} {r : ERes α} {f : α → PState → PRes β}
    {b : β} {s' : PState} (h : ebind r f = some (.ok b, s')) :
    ∃ a sa, r = (.ok a, sa) ∧ f a sa = some (.ok b, s') := by
  obtain ⟨res, sa⟩ := r
  cases res with
  | error e => simp [ebind] at h
  | ok a => exact ⟨a, sa, rfl, by simpa [ebind] using h⟩

/-- Appending one statement to a well-formed statement list. -/
theorem stmtListNoIll_append (l : List Statement) (st : Statement) :
    stmtListNoIll (l ++ [st]) = (stmtListNoIll l && stmtNoIll st) := by
  induction l with
  | nil => simp [stmtListNoIll]
  | cons x xs ih => simp [stmtListNoIll, ih, Bool.and_assoc]

/-- Elementwise reading of expression-list well-formedness. -/
theorem exprListNoIll_iff (l : List Expr) :
    exprListNoIll l = true ↔ ∀ e ∈ l, exprNoIll e = true := by
  induction l with
  | nil => simp [exprListNoIll]
  | cons x xs ih => simp [exprListNoIll, ih]

/-- Elementwise reading of dict-entry well-formedness. -/
theorem dictItemsNoIll_iff (l : List (Symbol × Expr)) :
    dictItemsNoIll l = true ↔ ∀ kv ∈ l, exprNoIll kv.2 = true := by
  induction l with
  | nil => simp [dictItemsNoIll]
  | cons x xs ih =>
    obtain ⟨k, v⟩ := x
    simp [dictItemsNoIll, ih]

/-- Basic lexical literals convert to well-formed AST literals. -/
theorem litNoIll_ofLex (l : LexLiteral) : litNoIll (Literal.ofLex l) = true := by
  cases l <;> rfl

/-- Every element produced by the `sep_by` loop satisfies any property the
element parser guarantees of its successful results. -/
theorem sepByGo_mem {α : Type} (p : PState → PRes α) (sep : TokenKind → Bool)
    (Q : α → Prop) (hp : ∀ s a s', p s = some (.ok a, s') → Q a) :
    ∀ fuel s acc items s', sepByGo p sep fuel s acc = some (.ok items, s') →
      (∀ a ∈ acc, Q a) → ∀ a ∈ items, Q a := by
  intro fuel
  induction fuel with
  | zero => intro s acc items s' h; simp [sepByGo] at h
  | succ n ih =>
    intro s acc items s' h hacc
    cases hps : p s with
    | none => simp [sepByGo, hps] at h
    | some r =>
      obtain ⟨res, sa⟩ := r
      cases res with
      | error e =>
        simp only [sepByGo, hps] at h
        cases h
        exact hacc
      | ok item =>
        have hitem : Q item := hp s item sa hps
        simp only [sepByGo, hps] at h
        cases htk : sa.token with
        | none =>
          simp only [htk] at h
          cases h
          intro a ha
          rcases List.mem_append.mp ha with h1 | h1
          · exact hacc a h1
          · have : a = item := List.mem_singleton.mp h1
            subst this
            exact hitem
        | some t =>
          simp only [htk] at h
          by_cases hsep : sep t.token = true
          · rw [if_pos hsep] at h
            refine ih _ _ _ _ h ?_
            intro a ha
            rcases List.mem_append.mp ha with h1 | h1
            · exact hacc a h1
            · have : a = item := List.mem_singleton.mp h1
              subst this
              exact hitem
          · rw [if_neg hsep] at h
            cases h
            intro a ha
            rcases List.mem_append.mp ha with h1 | h1
            · exact hacc a h1
            · have : a = item := List.mem_singleton.mp h1
              subst this
              exact hitem

/-- Every entry of a dict built by the insertion loop comes from the
accumulator or from the input entries. -/
theorem dictInsertAll_mem : ∀ items acc d,
    dictInsertAll acc items = some d → ∀ kv ∈ d, kv ∈ acc ∨ kv ∈ items := by
  intro items
  induction items with
  | nil =>
    intro acc d h kv hkv
    cases h
    exact .inl hkv
  | cons e restItems ih =>
    intro acc d h kv hkv
    obtain ⟨k, v⟩ := e
    simp only [dictInsertAll] at h
    split at h
    · cases h
    · rcases ih _ _ h kv hkv with h1 | h1
      · rcases List.mem_append.mp h1 with h2 | h2
        · exact .inl h2
        · have : kv = (k, v) := List.mem_singleton.mp h2
          subst this
          exact .inr (List.mem_cons_self _ _)
      · exact .inr (List.mem_cons_of_mem _ h1)

/-- The parser never constructs an ill-formed placeholder: every successful
result of every parsing function is recursively free of IllFormed nodes.
Proved by mutual induction on the fuel, one conjunct per parsing
function. -/
theorem parser_noIll_invariant : ∀ fuel,
    (∀ s b s', parseBlock fuel s = some (.ok b, s') →
      blockNoIll b = true) ∧
    (∀ s acc b s', parseBlockLoop fuel s acc = some (.ok b, s') →
      stmtListNoIll acc = true → blockNoIll b = true) ∧
    (∀ s st s', parseStatement fuel s = some (.ok st, s') →
      stmtNoIll st = true) ∧
    (∀ s st s', parseExprStatement fuel s = some (.ok st, s') →
      stmtNoIll st = true) ∧
    (∀ s e s', parseExpression fuel s = some (.ok e, s') →
      exprNoIll e = true) ∧
    (∀ lvl s e s', parseBinop fuel lvl s = some (.ok e, s') →
      exprNoIll e = true) ∧
    (∀ lvl left s e s', parseBinopLoop fuel lvl left s = some (.ok e, s') →
      exprNoIll left = true → exprNoIll e = true) ∧
    (∀ lvl s e s', parseLower fuel lvl s = some (.ok e, s') →
      exprNoIll e = true) ∧
    (∀ s e s', parseUnop fuel s = some (.ok e, s') →
      exprNoIll e = true) ∧
    (∀ s e s', parsePostfixChain fuel s = some (.ok e, s') →
      exprNoIll e = true) ∧
    (∀ left s e s', parsePostfixLoop fuel left s = some (.ok e, s') →
      exprNoIll left = true → exprNoIll e = true) ∧
    (∀ s e s', parsePrimary fuel s = some (.ok e, s') →
      exprNoIll e = true) ∧
    (∀ s ab s', parseFunction fuel s = some (.ok ab, s') →
      blockNoIll ab.2 = true) ∧
    (∀ s kv s', parseDictItem fuel s = some (.ok kv, s') →
      exprNoIll kv.2 = true) := by
  intro fuel
  induction fuel with
  | zero =>
    exact ⟨fun s b s' h => (nomatch h), fun s acc b s' h _ => (nomatch h),
      fun s st s' h => (nomatch h), fun s st s' h => (nomatch h),
      fun s e s' h => (nomatch h), fun lvl s e s' h => (nomatch h),
      fun lvl left s e s' h _ => (nomatch h), fun lvl s e s' h => (nomatch h),
      fun s e s' h => (nomatch h), fun s e s' h => (nomatch h),
      fun left s e s' h _ => (nomatch h), fun s e s' h => (nomatch h),
      fun s ab s' h => (nomatch h), fun s kv s' h => (nomatch h)⟩
  | succ n ih =>
    obtain ⟨ihB, ihBL, ihS, ihES, ihE, ihBo, ihBoL, ihLo, ihU, ihPC, ihPL,
      ihP, ihF, ihD⟩ := ih
    have hExprMem : ∀ s0 items s1,
        commaSep n (fun st => parseExpression n st) s0 =
          some (.ok items, s1) →
        ∀ a ∈ items, exprNoIll a = true := by
      intro s0 items s1 hc
      simp only [commaSep, sepBy] at hc
      exact sepByGo_mem (fun st => parseExpression n st)
        (fun k => k = TokenKind.comma) (fun a => exprNoIll a = true)
        (fun sx a sx' hx => ihE _ _ _ hx) n s0 [] items s1 hc
        (by intro a ha; cases ha)
    refine ⟨?_, ?_, ?_, ?_, ?_, ?_, ?_, ?_, ?_, ?_, ?_, ?_, ?_, ?_⟩
    · -- parseBlock
      intro s b s' h
      simp only [parseBlock] at h
      exact ihBL s [] b s' h rfl
    · -- parseBlockLoop
      intro s acc b s' h hacc
      simp only [parseBlockLoop] at h
      split at h
      · cases h; simpa [blockNoIll] using hacc
      · cases h; simpa [blockNoIll] using hacc
      · cases h; simpa [blockNoIll] using hacc
      · obtain ⟨st, s1, hst, hf⟩ := pbind_eq_ok h
        have hstOk := ihS s st s1 hst
        split at hf
        · cases hf
          simp [blockNoIll, stmtListNoIll_append, hacc, hstOk]
        · exact ihBL s1 (acc ++ [st]) b s' hf
            (by simp [stmtListNoIll_append, hacc, hstOk])
    · -- parseStatement
      intro s st s' h
      simp only [parseStatement] at h
      split at h
      · -- let
        obtain ⟨idp, s1, hid, hf⟩ := ebind_eq_ok h
        split at hf
        · obtain ⟨init, s2, hinit, hg⟩ := pbind_eq_ok hf
          cases hg
          simpa [stmtNoIll] using ihE _ _ _ hinit
        · cases hf; rfl
      · -- function keyword
        split at h
        · -- named function
          obtain ⟨idp, s1, hid, hf⟩ := ebind_eq_ok h
          obtain ⟨ab, s2, hab, hg⟩ := pbind_eq_ok hf
          cases hg
          simpa [stmtNoIll, exprNoIll, litNoIll] using ihF _ _ _ hab
        · exact ihES _ _ _ h
      · -- return
        obtain ⟨e, s1, he, hg⟩ := pbind_eq_ok h
        cases hg
        simpa [stmtNoIll] using ihE _ _ _ he
      · -- break
        cases h; rfl
      · -- while
        obtain ⟨cond, s1, hcond, h1⟩ := pbind_eq_ok h
        obtain ⟨_, s2, _, h2⟩ := ebind_eq_ok h1
        obtain ⟨blk, s3, hblk, h3⟩ := pbind_eq_ok h2
        obtain ⟨_, s4, _, h4⟩ := ebind_eq_ok h3
        cases h4
        simp [stmtNoIll, ihE _ _ _ hcond, ihB _ _ _ hblk]
      · -- for
        obtain ⟨idp, s1, hid, h1⟩ := ebind_eq_ok h
        obtain ⟨_, s2, _, h2⟩ := ebind_eq_ok h1
        obtain ⟨e, s3, he, h3⟩ := pbind_eq_ok h2
        obtain ⟨_, s4, _, h4⟩ := ebind_eq_ok h3
        obtain ⟨blk, s5, hblk, h5⟩ := pbind_eq_ok h4
        obtain ⟨_, s6, _, h6⟩ := ebind_eq_ok h5
        cases h6
        simp [stmtNoIll, ihE _ _ _ he, ihB _ _ _ hblk]
      · -- expression statement
        exact ihES _ _ _ h
      · -- end of input
        simp at h
    · -- parseExprStatement
      intro s st s' h
      simp only [parseExprStatement] at h
      obtain ⟨e, s1, he, hf⟩ := pbind_eq_ok h
      split at hf
      · obtain ⟨right, s2, hr, hg⟩ := pbind_eq_ok hf
        cases hg
        simp [stmtNoIll, ihE _ _ _ he, ihE _ _ _ hr]
      · cases hf
        simpa [stmtNoIll] using ihE _ _ _ he
    · -- parseExpression
      intro s e s' h
      simp only [parseExpression] at h
      exact ihBo _ _ _ _ h
    · -- parseBinop
      intro lvl s e s' h
      simp only [parseBinop] at h
      obtain ⟨l, s1, hl, hf⟩ := pbind_eq_ok h
      exact ihBoL lvl l s1 e s' hf (ihLo lvl s l s1 hl)
    · -- parseBinopLoop
      intro lvl left s e s' h hleft
      simp only [parseBinopLoop] at h
      split at h
      · split at h
        · obtain ⟨right, s1, hr, hf⟩ := pbind_eq_ok h
          exact ihBoL lvl _ s1 e s' hf
            (by simp [exprNoIll, hleft, ihLo lvl _ right s1 hr])
        · cases h; exact hleft
      · cases h; exact hleft
    · -- parseLower
      intro lvl s e s' h
      cases lvl <;> simp only [parseLower] at h <;>
        first
          | exact ihBo _ _ _ _ h
          | exact ihU _ _ _ h
    · -- parseUnop
      intro s e s' h
      simp only [parseUnop] at h
      split at h
      · split at h
        · obtain ⟨operand, s1, hop, hf⟩ := pbind_eq_ok h
          cases hf
          simpa [exprNoIll] using ihU _ _ _ hop
        · exact ihPC _ _ _ h
      · exact ihPC _ _ _ h
    · -- parsePostfixChain
      intro s e s' h
      simp only [parsePostfixChain] at h
      obtain ⟨prim, s1, hp, hf⟩ := pbind_eq_ok h
      exact ihPL prim s1 e s' hf (ihP _ _ _ hp)
    · -- parsePostfixLoop
      intro left s e s' h hleft
      simp only [parsePostfixLoop] at h
      split at h
      · -- call
        obtain ⟨params, s1, hparams, hf⟩ := pbind_eq_ok h
        obtain ⟨_, s2, _, hg⟩ := ebind_eq_ok hf
        refine ihPL _ s2 e s' hg ?_
        have hmem := hExprMem _ _ _ hparams
        simp [exprNoIll, hleft, (exprListNoIll_iff params).mpr hmem]
      · -- subscript
        obtain ⟨field, s1, hfield, hf⟩ := pbind_eq_ok h
        obtain ⟨_, s2, _, hg⟩ := ebind_eq_ok hf
        exact ihPL _ s2 e s' hg
          (by simp [exprNoIll, hleft, ihE _ _ _ hfield])
      · -- dot access
        obtain ⟨idp, s1, hid, hf⟩ := ebind_eq_ok h
        exact ihPL _ s1 e s' hf
          (by simp [exprNoIll, litNoIll, hleft])
      · cases h; exact hleft
    · -- parsePrimary
      intro s e s' h
      simp only [parsePrimary] at h
      split at h
      · cases h; rfl
      · cases h; rfl
      · cases h; simpa [exprNoIll] using litNoIll_ofLex _
      · -- array literal
        obtain ⟨items, s1, hitems, hf⟩ := pbind_eq_ok h
        obtain ⟨_, s2, _, hg⟩ := ebind_eq_ok hf
        cases hg
        have hmem := hExprMem _ _ _ hitems
        simpa [exprNoIll, litNoIll] using (exprListNoIll_iff items).mpr hmem
      · -- dict literal
        obtain ⟨items, s1, hitems, hf⟩ := pbind_eq_ok h
        obtain ⟨_, s2, _, hg⟩ := ebind_eq_ok hf
        have hmem : ∀ kv ∈ items, exprNoIll kv.2 = true := by
          simp only [commaSep, sepBy] at hitems
          exact sepByGo_mem (fun st => parseDictItem n st)
            (fun k => k = TokenKind.comma)
            (fun kv => exprNoIll kv.2 = true)
            (fun sx kv sx' hx => ihD _ _ _ hx) n _ [] items s1 hitems
            (by intro a ha; cases ha)
        split at hg
        · rename_i d hdict
          cases hg
          have hd : dictItemsNoIll d = true := by
            apply (dictItemsNoIll_iff d).mpr
            intro kv hkv
            rcases dictInsertAll_mem items [] d hdict kv hkv with h1 | h1
            · cases h1
            · exact hmem kv h1
          simpa [exprNoIll, litNoIll] using hd
        · simp at hg
      · -- function literal
        obtain ⟨ab, s1, hab, hf⟩ := pbind_eq_ok h
        cases hf
        simpa [exprNoIll, litNoIll] using ihF _ _ _ hab
      · -- if conditional
        obtain ⟨cond, s1, hcond, h1⟩ := pbind_eq_ok h
        obtain ⟨_, s2, _, h2⟩ := ebind_eq_ok h1
        obtain ⟨thenB, s3, hthen, h3⟩ := pbind_eq_ok h2
        obtain ⟨hasElse, s4, _, h4⟩ := ebind_eq_ok h3
        split at h4
        · obtain ⟨oth, s5, hoth, h5⟩ := pbind_eq_ok h4
          obtain ⟨_, s6, _, h6⟩ := ebind_eq_ok h5
          cases h6
          simp [exprNoIll, ihE _ _ _ hcond, ihB _ _ _ hthen,
            ihB _ _ _ hoth]
        · cases h4
          simp [exprNoIll, blockNoIll, stmtListNoIll,
            ihE _ _ _ hcond, ihB _ _ _ hthen]
      · -- parenthesis
        obtain ⟨e1, s1, he1, hf⟩ := pbind_eq_ok h
        obtain ⟨_, s2, _, hg⟩ := ebind_eq_ok hf
        cases hg
        exact ihE _ _ _ he1
      · simp at h
      · simp at h
    · -- parseFunction
      intro s ab s' h
      simp only [parseFunction] at h
      obtain ⟨_, s1, _, h1⟩ := ebind_eq_ok h
      obtain ⟨args, s2, hargs, h2⟩ := pbind_eq_ok h1
      obtain ⟨_, s3, _, h3⟩ := ebind_eq_ok h2
      obtain ⟨body, s4, hbody, h4⟩ := pbind_eq_ok h3
      obtain ⟨_, s5, _, h5⟩ := ebind_eq_ok h4
      cases h5
      simpa using ihB _ _ _ hbody
    · -- parseDictItem
      intro s kv s' h
      simp only [parseDictItem] at h
      obtain ⟨kp, s1, _, h1⟩ := ebind_eq_ok h
      obtain ⟨_, s2, _, h2⟩ := ebind_eq_ok h1
      obtain ⟨v, s3, hv, h3⟩ := pbind_eq_ok h2
      cases h3
      simpa using ihE _ _ _ hv

/-- C7: no Block, Statement or Expr value returned by `Parser::parse` (at
any depth of the resulting tree) is an IllFormed variant: whenever the
top-level parse produces a block, that block is recursively free of
ill-formed placeholder nodes, because every local grammar failure is
propagated to the caller instead of being turned into a placeholder. -/
theorem parse_output_well_formed :
    ∀ iters fuel s b errs, parseTop iters fuel s = (some b, errs) →
      blockNoIll b = true := by
  intro iters
  induction iters with
  | zero =>
    intro fuel s b errs h
    simp [parseTop] at h
  | succ m ih =>
    intro fuel s b errs h
    simp only [parseTop] at h
    cases hpb : parseBlock fuel s with
    | none => simp [hpb] at h
    | some r =>
      obtain ⟨res, sr⟩ := r
      cases res with
      | ok b' =>
        simp only [hpb] at h
        cases h
        exact (parser_noIll_invariant fuel).1 _ _ _ hpb
      | error e =>
        simp only [hpb] at h
        cases hpt : parseTop m fuel sr with
        | mk r1 r2 =>
          rw [hpt] at h
          cases h
          exact ih fuel sr b r2 hpt

/-- Witness for C7: the empty input parses in one iteration to the empty
block, which is well formed. -/
theorem parse_output_well_formed_witness :
    parseTop 1 64 (mkParser []) = (some (.block []), []) ∧
    blockNoIll (.block []) = true :=
  ⟨rfl, parse_output_well_formed 1 64 (mkParser []) (.block []) [] rfl⟩

/-- C2: binary expressions are parsed by precedence climbing: `1 + 2 * 3`
parses to BinaryOp(Plus, 1, BinaryOp(Times, 2, 3)), `a or b and c` parses to
BinaryOp(Or, a, BinaryOp(And, b, c)), and every level is left-associative
with the right operand parsed one level higher: `1 - 2 - 3` parses to
BinaryOp(Minus, BinaryOp(Minus, 1, 2), 3). -/
theorem parse_precedence_climbing :
    parseExpression 64 (mkParser
      [tok (.literal (.int 1)) 1, tok (.operator .plus) 3,
       tok (.literal (.int 2)) 5, tok (.operator .times) 7,
       tok (.literal (.int 3)) 9]) =
      some (.ok (.binaryOp
          (.literal (.int 1) ⟨1, 1, 0⟩)
          .plus
          (.binaryOp (.literal (.int 2) ⟨1, 5, 0⟩) .times
            (.literal (.int 3) ⟨1, 9, 0⟩) ⟨1, 7, 0⟩)
          ⟨1, 3, 0⟩),
        ⟨none, []⟩) ∧
    parseExpression 64 (mkParser
      [tok (.identifier 10) 1, tok (.operator .or_) 3,
       tok (.identifier 11) 6, tok (.operator .and_) 8,
       tok (.identifier 12) 12]) =
      some (.ok (.binaryOp
          (.identifier 10 ⟨1, 1, 0⟩)
          .or_
          (.binaryOp (.identifier 11 ⟨1, 6, 0⟩) .and_
            (.identifier 12 ⟨1, 12, 0⟩) ⟨1, 8, 0⟩)
          ⟨1, 3, 0⟩),
        ⟨none, []⟩) ∧
    parseExpression 64 (mkParser
      [tok (.literal (.int 1)) 1, tok (.operator .minus) 3,
       tok (.literal (.int 2)) 5, tok (.operator .minus) 7,
       tok (.literal (.int 3)) 9]) =
      some (.ok (.binaryOp
          (.binaryOp (.literal (.int 1) ⟨1, 1, 0⟩) .minus
            (.literal (.int 2) ⟨1, 5, 0⟩) ⟨1, 3, 0⟩)
          .minus
          (.literal (.int 3) ⟨1, 9, 0⟩)
          ⟨1, 7, 0⟩),
        ⟨none, []⟩) :=
  ⟨rfl, rfl, rfl⟩

/-- C3: a block never contains a statement after a return: for `return x`
followed by a statement-starting token and arbitrary further tokens,
`parse_block` produces exactly the one Return statement and leaves the
trailing tokens (from the statement-starting one on) unconsumed. -/
theorem parse_block_stops_after_return
    (retPos xPos kPos : SourcePos) (x : Symbol) (k : TokenKind)
    (rest : List Token) (hk : isStmtStart k = true) :
    parseBlock 64 (mkParser
      (⟨.keyword .return_, retPos⟩ :: ⟨.identifier x, xPos⟩ ::
        ⟨k, kPos⟩ :: rest)) =
      some (.ok (.block [.ret (.identifier x xPos) retPos]),
        ⟨some ⟨k, kPos⟩, rest⟩) := by
  cases k with
  | keyword kw => cases kw <;> rfl
  | _ => simp [isStmtStart] at hk

/-- Witness for C3: instantiated at `return x` followed by a let keyword
and one further identifier token. -/
theorem parse_block_stops_after_return_witness :
    isStmtStart (.keyword .let_) = true ∧
    parseBlock 64 (mkParser
      (⟨.keyword .return_, ⟨1, 1, 0⟩⟩ :: ⟨.identifier 5, ⟨1, 8, 0⟩⟩ ::
        ⟨.keyword .let_, ⟨1, 10, 0⟩⟩ :: [⟨.identifier 6, ⟨1, 14, 0⟩⟩])) =
      some (.ok (.block [.ret (.identifier 5 ⟨1, 8, 0⟩) ⟨1, 1, 0⟩]),
        ⟨some ⟨.keyword .let_, ⟨1, 10, 0⟩⟩, [⟨.identifier 6, ⟨1, 14, 0⟩⟩]⟩) :=
  ⟨rfl,
    parse_block_stops_after_return ⟨1, 1, 0⟩ ⟨1, 8, 0⟩ ⟨1, 10, 0⟩ 5
      (.keyword .let_) [⟨.identifier 6, ⟨1, 14, 0⟩⟩] rfl⟩

/-- C4: the dict literal `{a: 1, a: 2}` (tokens: open-dict, a, colon, 1,
comma, a, colon, 2, close bracket) fails with DuplicateKeys at the position
of the dict literal's opening token, and no Dict node is produced: the
parse of the literal returns that error. -/
theorem parse_dict_duplicate_keys :
    parseExpression 64 (mkParser
      [tok .openDict 1, tok (.identifier 7) 2, tok .colon 3,
       tok (.literal (.int 1)) 5, tok .comma 6, tok (.identifier 7) 8,
       tok .colon 9, tok (.literal (.int 2)) 11, tok .closeBracket 12]) =
      some (.error (.duplicateKeys ⟨1, 1, 0⟩), ⟨none, []⟩) :=
  rfl

/-- C9: the dot access `a.b` parses to an Access whose field is a literal
identifier carrying b's symbol (a literal field name, not a variable
reference), mirroring the subscript `a["b"]` whose field is the literal
string key. -/
theorem parse_dot_access_literal_field :
    parseExpression 64 (mkParser
      [tok (.identifier 1) 1, tok (.operator .dot) 2,
       tok (.identifier 2) 3]) =
      some (.ok (.access
          (.identifier 1 ⟨1, 1, 0⟩)
          (.literal (.identifier 2) ⟨1, 3, 0⟩)
          ⟨1, 2, 0⟩),
        ⟨none, []⟩) ∧
    parseExpression 64 (mkParser
      [tok (.identifier 1) 1, tok .openBracket 2,
       tok (.literal (.str [98])) 3, tok .closeBracket 6]) =
      some (.ok (.access
          (.identifier 1 ⟨1, 1, 0⟩)
          (.literal (.str [98]) ⟨1, 3, 0⟩)
          ⟨1, 2, 0⟩),
        ⟨none, []⟩) :=
  ⟨rfl, rfl⟩

/-- C10: `if cond then block end` with no else clause parses to an If whose
otherwise branch is the empty block, which is not the ill-formed block. -/
theorem parse_if_without_else_empty_block :
    parseExpression 64 (mkParser
      [tok (.keyword .if_) 1, tok (.identifier 9) 4, tok (.keyword .then_) 6,
       tok (.keyword .end_) 11]) =
      some (.ok (.ifExpr
          (.identifier 9 ⟨1, 4, 0⟩)
          (.block [])
          (.block [])
          ⟨1, 1, 0⟩),
        ⟨none, []⟩) ∧
    (Block.block []).isIllFormed = false :=
  ⟨rfl, rfl⟩

/-- C6 counterexample: `function foo(bar, baz) end` and
`let foo = function(bar, baz) end` (with the token positions lexing would
assign on line 1) do NOT produce Let statements that are structurally
identical except for the Let statement's recorded SourcePos: even after
replacing the named form's Let position by the let form's, the statements
still differ, because the Function literal's position (copied from the
function keyword) also differs between the two texts. -/
theorem named_function_sugar_counterexample :
    parseStatement 64 (mkParser namedFnStmtTokens) =
      some (.ok namedFnStmt, ⟨none, []⟩) ∧
    parseStatement 64 (mkParser letFnStmtTokens) =
      some (.ok letFnStmt, ⟨none, []⟩) ∧
    setLetPos namedFnStmt ⟨1, 1, 0⟩ ≠ letFnStmt :=
  ⟨rfl, rfl, fun h => by
    have h2 := congrArg letInitPos h
    simp [letInitPos, setLetPos, namedFnStmt, letFnStmt] at h2⟩

/-- C6 amended: the two forms produce Let statements of identical structure
(identifier foo bound to a Function literal with parameters bar, baz and an
empty body block) differing only in recorded SourcePos fields: the Let
statement's own position (the identifier's position, column 10, in the named
form; the let keyword's, column 1, in the let form) and the Function
literal's position (the function keyword's position in each form: column 1
versus column 11). Normalizing those two position fields makes the
statements equal. -/
theorem named_function_sugar_equivalence :
    parseStatement 64 (mkParser namedFnStmtTokens) =
      some (.ok namedFnStmt, ⟨none, []⟩) ∧
    parseStatement 64 (mkParser letFnStmtTokens) =
      some (.ok letFnStmt, ⟨none, []⟩) ∧
    namedFnStmt =
      .letStmt 1 (.literal (.function_ [2, 3] (.block [])) ⟨1, 1, 0⟩)
        ⟨1, 10, 0⟩ ∧
    letFnStmt =
      .letStmt 1 (.literal (.function_ [2, 3] (.block [])) ⟨1, 11, 0⟩)
        ⟨1, 1, 0⟩ ∧
    setLetInitPos (setLetPos namedFnStmt ⟨0, 0, 0⟩) ⟨0, 0, 0⟩ =
      setLetInitPos (setLetPos letFnStmt ⟨0, 0, 0⟩) ⟨0, 0, 0⟩ :=
  ⟨rfl, rfl, rfl, rfl, rfl⟩

/-- C5: token consumption via eat and expect is transactional. For expect:
if the buffered token has the expected kind, the cursor advances by exactly
one token and the token's kind is returned; otherwise the state (including
the buffered token) is left exactly as it was and the error carries the
actual token, or UnexpectedEof at end of input. For eat with any predicate
that hands back the token it was given: success advances by one step
returning the payload, failure leaves the state untouched, end of input
yields UnexpectedEof with the state untouched. -/
theorem eat_expect_transactional {α : Type} (s : PState)
    (expected : TokenKind) (f : Token → Except (Error × Token) α)
    (hf : ∀ t e t', f t = .error (e, t') → t' = t) :
    (∀ t, s.token = some t → t.token = expected →
      expect expected s = (.ok expected, stepState s)) ∧
    (∀ t, s.token = some t → t.token ≠ expected →
      expect expected s = (.error (.unexpected t expected), s)) ∧
    (s.token = none → expect expected s = (.error .unexpectedEof, s)) ∧
    (∀ t v, s.token = some t → f t = .ok v →
      eat f s = (.ok v, stepState s)) ∧
    (∀ t e t', s.token = some t → f t = .error (e, t') →
      eat f s = (.error e, s)) ∧
    (s.token = none → eat f s = (.error .unexpectedEof, s)) := by
  obtain ⟨tk0, rest0⟩ := s
  refine ⟨?_, ?_, ?_, ?_, ?_, ?_⟩
  · intro t ht hexp
    simp only [expect, eat]
    simp_all
  · intro t ht hexp
    simp only [expect, eat]
    simp_all
  · intro ht
    simp only [expect, eat]
    simp_all
  · intro t v ht hok
    simp only [eat]
    simp_all
  · intro t e t' ht herr
    have := hf t e t' herr
    subst this
    simp only [eat]
    simp_all
  · intro ht
    simp only [eat]
    simp_all

/-- Witness for C5: for a state buffering a colon token, expecting a comma
fails with an error carrying the colon token and leaves the state as it
was. -/
theorem eat_expect_transactional_witness :
    expect .comma (mkParser [tok .colon 1]) =
      (.error (.unexpected (tok .colon 1) .comma), mkParser [tok .colon 1]) :=
  (@eat_expect_transactional Unit (mkParser [tok .colon 1]) .comma
      (fun t => .error (.unexpectedEof, t))
      (fun _ _ _ h => by cases h; rfl)).2.1
    (tok .colon 1) rfl (by decide)

/-- C1 counterexample: the claim that `Parser::parse` terminates on every
finite token sequence is false: on the single-token input consisting of one
close parenthesis, `parse_block` fails without changing the parser state,
so the top-level loop re-reports the same error forever and never returns a
Block. -/
theorem parse_nontermination_counterexample :
    parserDiverges 64 loneCloseParens ∧
    parseBlock 64 loneCloseParens = some (.error stuckError, loneCloseParens) := by
  refine ⟨?_, rfl⟩
  intro iters
  induction iters with
  | zero => rfl
  | succ n ih =>
    show (parseTop (n + 1) 64 loneCloseParens).1 = none
    simp only [parseTop]
    rw [show parseBlock 64 loneCloseParens =
      some (.error stuckError, loneCloseParens) from rfl]
    simpa using ih

/-- C1 amended: `Parser::parse` reports, through the error reporter, the
error of every failed `parse_block` attempt; but it need not terminate:
whenever a `parse_block` attempt fails while leaving the parser state
unchanged, every following iteration fails the same way, so the loop never
returns a Block and reports that same error once per iteration, forever. -/
theorem parse_reports_errors_but_may_diverge (fuel : Nat) (s : PState)
    (e : Error) (h : parseBlock fuel s = some (.error e, s)) :
    ∀ iters, parseTop iters fuel s = (none, List.replicate iters e) := by
  intro iters
  induction iters with
  | zero => rfl
  | succ n ih => simp [parseTop, h, ih, List.replicate]

/-- Witness for C1: instantiated at the lone close parenthesis input: two
iterations of the top-level loop produce no block and report the error
twice. -/
theorem parse_reports_errors_but_may_diverge_witness :
    parseTop 2 64 loneCloseParens = (none, [stuckError, stuckError]) :=
  parse_reports_errors_but_may_diverge 64 loneCloseParens stuckError rfl 2

/-- C8: sep_by always returns Ok: whatever the element parser and separator
predicate, a completed run never yields an error (the failed element
attempt's error is swallowed, never propagated or reported); and the state
at which the element parser failed is kept, so tokens it consumed before
failing are not restored. The concrete conjunct shows comma-separated
expression parsing of the token forms `1, (2`: the result is Ok with the
single element 1, and the failed element attempt has consumed the open
parenthesis and the 2 (the state is at end of input). -/
theorem sep_by_always_ok
    {α : Type} (p : PState → PRes α) (sep : TokenKind → Bool) :
    (∀ fuel s acc out, sepByGo p sep fuel s acc = some out →
      ∃ items, out.1 = .ok items) ∧
    commaSep 64 (fun st => parseExpression 64 st)
      (mkParser
        [tok (.literal (.int 1)) 1, tok .comma 2, tok .openParens 4,
         tok (.literal (.int 2)) 5]) =
      some (.ok [.literal (.int 1) ⟨1, 1, 0⟩], ⟨none, []⟩) := by
  constructor
  · intro fuel
    induction fuel with
    | zero => intro s acc out h; simp [sepByGo] at h
    | succ n ih =>
      intro s acc out h
      cases hp : p s with
      | none => simp [sepByGo, hp] at h
      | some r =>
        obtain ⟨res, s'⟩ := r
        cases res with
        | error e =>
          simp only [sepByGo, hp] at h
          cases h
          exact ⟨acc, rfl⟩
        | ok item =>
          simp only [sepByGo, hp] at h
          cases htk : s'.token with
          | none =>
            simp only [htk] at h
            cases h
            exact ⟨acc ++ [item], rfl⟩
          | some t =>
            simp only [htk] at h
            by_cases hsep : sep t.token = true
            · rw [if_pos hsep] at h
              exact ih _ _ _ h
            · rw [if_neg hsep] at h
              cases h
              exact ⟨acc ++ [item], rfl⟩
  · rfl

/-- Witness for C8: the generic conjunct applied to a concrete completed
run: comma-separated expression parsing of `1, (2` yields an Ok result. -/
theorem sep_by_always_ok_witness :
    ∃ items,
      ((Except.ok [Expr.literal (.int 1) ⟨1, 1, 0⟩], ⟨none, []⟩) :
        ERes (List Expr)).1 = Except.ok items :=
  (sep_by_always_ok (fun st => parseExpression 64 st)
      (fun k => k = TokenKind.comma)).1
    64 (mkParser
      [tok (.literal (.int 1)) 1, tok .comma 2, tok .openParens 4,
       tok (.literal (.int 2)) 5]) []
    ((Except.ok [Expr.literal (.int 1) ⟨1, 1, 0⟩], ⟨none, []⟩) :
      ERes (List Expr))
    rfl

end Hush
